import Mathlib

/-!
Verification development for the `magnetic_system` class of
`src/magnetic_system.py` (emns_utils repository).

The shallow embedding below models:
  * the 5-D field tensor `Bs` indexed by `(ix, iy, iz, component, coil)`
    as a total function `ℕ → ℕ → ℕ → ℕ → ℕ → ℚ` together with
    explicitly tracked shape parameters (`Nx, Ny, Nz, 3, Ncoils`);
    floating-point arithmetic is idealised as exact rational arithmetic;
  * the axis-extraction helper `extract_unique_vals_tol` (line 75-76),
    including the Python `round` half-to-even tie rule;
  * the finite-difference gradient `_compute_gradient_tensor`
    (lines 125-166);
  * the coil permutation `permutate_coils` (lines 87-98), whose loop
    `for idx in range(0,6)` is hard-coded to six coils; index errors of
    the Python loop (short `coilvec`, out-of-range entry, fewer than six
    coils) are modelled as `none`, and since the Python method assigns
    `self.Bs` only after the loop completes, a raised index error leaves
    the object unchanged, which `none` models faithfully;
  * `scipy.interpolate.RegularGridInterpolator` with the default
    `method="linear"`, `bounds_error=True`: cell lookup by binary search
    (`searchsorted` side left, clipped), multilinear interpolation, and
    an out-of-bounds failure modelled as `none`.  An interpolator object
    is modelled by the tensor its `values` argument was bound to at
    construction time (the scipy object keeps a reference to that array,
    and the class rebinds `self.Bx` etc. to fresh arrays, so the bound
    tensor never changes after construction);
  * the object state (`__init__`, lines 24-54) as a structure
    `SysState`, with `initState` for the constructor after ingestion and
    `permutateState` for `permutate_coils` acting on the whole object.
-/

/-- Field tensor indexed by `(ix, iy, iz, component, coil)`; entries
outside the tracked shape are junk and never constrained. -/
abbrev Tensor : Type := ℕ → ℕ → ℕ → ℕ → ℕ → ℚ

/-- Matrix indexed by `(component, coil)`, as returned by interpolator
queries. -/
abbrev Mat : Type := ℕ → ℕ → ℚ

/-- Python `round` on an exact rational: nearest integer, ties to even. -/
def pyRound (q : ℚ) : ℤ :=
  let f : ℤ := ⌊q⌋
  let r : ℚ := q - (f : ℚ)
  if r < 1/2 then f
  else if 1/2 < r then f + 1
  else if f % 2 = 0 then f else f + 1

/-- Rounding step `1e-6*round(1e6*c)` used by `extract_unique_vals_tol`
(line 76): rounds to 6 decimal places. -/
def roundTol (c : ℚ) : ℚ := (pyRound (1000000 * c) : ℚ) / 1000000

/-- Embeds `extract_unique_vals_tol` (lines 75-76):
`list(set([1e-6*round(1e6*c) for c in arr]))`.  The Python `set` is
modelled by `dedup`; the Python set iteration order is arbitrary and
every caller sorts the result, so only the underlying set matters. -/
def extract_unique_vals_tol (arr : List ℚ) : List ℚ :=
  (arr.map roundTol).dedup

/-- Axis as built in `__init__` (lines 33-34 etc.): the extracted unique
values, sorted ascending (`self.xcoords.sort()`). -/
def axisOf (arr : List ℚ) : List ℚ :=
  List.insertionSort (· ≤ ·) (extract_unique_vals_tol arr)

/-- Spacing as computed in `__init__` (line 35): difference of the first
two sorted axis values. -/
def deltaOf (arr : List ℚ) : ℚ :=
  (axisOf arr).getD 1 0 - (axisOf arr).getD 0 0

/-- Modelled from the spec (section 4.1 wording only, for comparison
with the code): rounding a rational with `|q| ≥ 1` to 6 significant
decimal digits.  `intDigits` is the digit count of the integer part. -/
def intDigits (q : ℚ) : ℕ := Nat.log 10 (⌊|q|⌋).toNat + 1

/-- Modelled from the spec: round `q` (with `|q| ≥ 1`) to 6 significant
decimal digits by scaling so that 6 digits remain before rounding. -/
def sigRound6 (q : ℚ) : ℚ :=
  let s : ℤ := 6 - (intDigits q : ℤ)
  (pyRound (q * (10 : ℚ) ^ s) : ℚ) * (10 : ℚ) ^ (-s)

/-- Embeds the coordinate rescaling of `__init__` (lines 29-30):
`if posunit=="mm": self.coordinates*=1e-3`; any other `posunit` value
leaves the coordinates untouched and raises no error. -/
def applyPosunit (posunit : String) (coords : List (ℚ × ℚ × ℚ)) :
    List (ℚ × ℚ × ℚ) :=
  if posunit = "mm" then
    coords.map (fun p => (p.1 / 1000, p.2.1 / 1000, p.2.2 / 1000))
  else coords

/-- Embeds the x-direction pass of `_compute_gradient_tensor`
(lines 131-142): the loop body writes, for each node `(nx,ny,nz)` and
each `(component, coil)` slice, a forward difference at `nx = 0`, a
backward difference at `nx = Nx-1`, and the two-node difference divided
by the single spacing `deltax` otherwise; `Nx` is `Bs.shape[0]`. -/
def gradX (Nx : ℕ) (dx : ℚ) (Bs : Tensor) : Tensor := fun nx ny nz c k =>
  if nx = 0 then (Bs 1 ny nz c k - Bs 0 ny nz c k) / dx
  else if nx = Nx - 1 then (Bs nx ny nz c k - Bs (nx - 1) ny nz c k) / dx
  else (Bs (nx + 1) ny nz c k - Bs (nx - 1) ny nz c k) / dx

/-- Embeds the y-direction pass of `_compute_gradient_tensor`
(lines 143-154). -/
def gradY (Ny : ℕ) (dy : ℚ) (Bs : Tensor) : Tensor := fun nx ny nz c k =>
  if ny = 0 then (Bs nx 1 nz c k - Bs nx 0 nz c k) / dy
  else if ny = Ny - 1 then (Bs nx ny nz c k - Bs nx (ny - 1) nz c k) / dy
  else (Bs nx (ny + 1) nz c k - Bs nx (ny - 1) nz c k) / dy

/-- Embeds the z-direction pass of `_compute_gradient_tensor`
(lines 155-166). -/
def gradZ (Nz : ℕ) (dz : ℚ) (Bs : Tensor) : Tensor := fun nx ny nz c k =>
  if nz = 0 then (Bs nx ny 1 c k - Bs nx ny 0 c k) / dz
  else if nz = Nz - 1 then (Bs nx ny nz c k - Bs nx ny (nz - 1) c k) / dz
  else (Bs nx ny (nz + 1) c k - Bs nx ny (nz - 1) c k) / dz

/-- Condition under which the loop `for idx in range(0,6)` of
`permutate_coils` (lines 93-94) completes without an index error:
`coilvec[idx]` must exist (`6 ≤ coilvec.length`), its value must be a
valid coil index (`coilvec[idx] < Ncoils`), and the write target
`Bs_temp[:,:,:,:,idx]` must be in range (`6 ≤ Ncoils`).  Negative Python
indices are not modelled; every claim uses indices in `[0, Ncoils)`. -/
def valid6 (Nc : ℕ) (cv : List ℕ) : Bool :=
  decide (6 ≤ Nc) && decide (6 ≤ cv.length) &&
    (List.range 6).all (fun i => decide (cv.getD i 0 < Nc))

/-- Embeds `permutate_coils` (lines 87-98) at the tensor level: copies
`Bs`, then for `idx` in `0..5` sets slice `idx` of the copy to slice
`coilvec[idx]` of the original; slices `6 ≤ k` keep the original values.
An index error in the loop is `none` (the Python object is then left
unchanged, since `self.Bs` is assigned only after the loop). -/
def permutate_coils (Nc : ℕ) (Bs : Tensor) (cv : List ℕ) : Option Tensor :=
  if valid6 Nc cv then
    some (fun ix iy iz c k =>
      if k < 6 then Bs ix iy iz c (cv.getD k 0) else Bs ix iy iz c k)
  else none

/-- Insertion point computed by `np.searchsorted(grid, x)` (side left)
on a sorted grid: the number of grid values strictly below `x`. -/
def searchsorted (xs : List ℚ) (x : ℚ) : ℕ :=
  xs.countP (fun c => decide (c < x))

/-- Cell index used by `RegularGridInterpolator`: `searchsorted - 1`,
clipped into `[0, length - 2]` (ℕ subtraction gives the lower clip). -/
def findCell (xs : List ℚ) (x : ℚ) : ℕ :=
  min (searchsorted xs x - 1) (xs.length - 2)

/-- One-dimensional linear interpolation step of
`RegularGridInterpolator`: locate the cell, form the normalised
distance, and blend the two cell-edge values of `f`. -/
def interp1 (xs : List ℚ) (f : ℕ → ℚ) (x : ℚ) : ℚ :=
  let i := findCell xs x
  let t := (x - xs.getD i 0) / (xs.getD (i + 1) 0 - xs.getD i 0)
  (1 - t) * f i + t * f (i + 1)

/-- Trilinear interpolation of one `(component, coil)` entry of a field
tensor: linear independently along each axis, as
`RegularGridInterpolator` does with `method="linear"`. -/
def trilinear (xs ys zs : List ℚ) (Bs : Tensor) (x y z : ℚ)
    (c n : ℕ) : ℚ :=
  interp1 xs
    (fun ix => interp1 ys
      (fun iy => interp1 zs (fun iz => Bs ix iy iz c n) z) y) x

/-- Bounds check of `RegularGridInterpolator` (`bounds_error=True`):
the query coordinate must lie between the first and last grid value. -/
def inBoundsB (xs : List ℚ) (x : ℚ) : Bool :=
  decide (xs.getD 0 0 ≤ x) && decide (x ≤ xs.getD (xs.length - 1) 0)

/-- Query of one interpolator object: `none` models the
`ValueError` raised when the position is out of bounds (there is no
extrapolation path); otherwise the `(3, Ncoils)` result matrix. -/
def interpQuery (xs ys zs : List ℚ) (vals : Tensor) (x y z : ℚ) :
    Option Mat :=
  if inBoundsB xs x && inBoundsB ys y && inBoundsB zs z then
    some (fun c n => trilinear xs ys zs vals x y z c n)
  else none

/-- Object state of a `magnetic_system` instance.  The four
`...Interpolator` fields hold the tensor each scipy interpolator was
bound to at its construction; `Nx, Ny, Nz` track `Bs.shape[0..2]`. -/
structure SysState where
  Nx : ℕ
  Ny : ℕ
  Nz : ℕ
  Ncoils : ℕ
  coordinates : List (ℚ × ℚ × ℚ)
  xcoords : List ℚ
  ycoords : List ℚ
  zcoords : List ℚ
  deltax : ℚ
  deltay : ℚ
  deltaz : ℚ
  Bs : Tensor
  Bx : Tensor
  By : Tensor
  Bz : Tensor
  BactInterpolator : Tensor
  BxInterpolator : Tensor
  ByInterpolator : Tensor
  BzInterpolator : Tensor

/-- Embeds `__init__` (lines 24-54) after ingestion: `rawCoords` and
`Bs0` stand for the `(coordinates, Bs)` pair the ingestion helpers
return, `Nx, Ny, Nz` for `Bs0.shape[0..2]`.  Coordinates are rescaled
for `posunit="mm"`, each axis is extracted and sorted, spacings are the
first differences, the gradient tensors are computed, and all four
interpolators are bound to the current tensors. -/
def initState (rawCoords : List (ℚ × ℚ × ℚ)) (posunit : String)
    (Bs0 : Tensor) (Nx Ny Nz Nc : ℕ) : SysState :=
  let coords := applyPosunit posunit rawCoords
  let xcoords := axisOf (coords.map (fun p => p.1))
  let ycoords := axisOf (coords.map (fun p => p.2.1))
  let zcoords := axisOf (coords.map (fun p => p.2.2))
  let deltax := xcoords.getD 1 0 - xcoords.getD 0 0
  let deltay := ycoords.getD 1 0 - ycoords.getD 0 0
  let deltaz := zcoords.getD 1 0 - zcoords.getD 0 0
  let Bx := gradX Nx deltax Bs0
  let By := gradY Ny deltay Bs0
  let Bz := gradZ Nz deltaz Bs0
  { Nx := Nx, Ny := Ny, Nz := Nz, Ncoils := Nc
    coordinates := coords
    xcoords := xcoords, ycoords := ycoords, zcoords := zcoords
    deltax := deltax, deltay := deltay, deltaz := deltaz
    Bs := Bs0, Bx := Bx, By := By, Bz := Bz
    BactInterpolator := Bs0
    BxInterpolator := Bx, ByInterpolator := By, BzInterpolator := Bz }

/-- Embeds `permutate_coils` (lines 87-98) acting on the whole object:
on success the field tensor is replaced, `BactInterpolator` is rebuilt
on the new tensor (line 97), and `_compute_gradient_tensor` rebinds
`Bs`-derived `Bx, By, Bz` to fresh tensors (line 98).  The method never
rebuilds `BxInterpolator`, `ByInterpolator`, `BzInterpolator`, so those
fields keep the tensors bound at the previous construction. -/
def permutateState (s : SysState) (cv : List ℕ) : Option SysState :=
  match permutate_coils s.Ncoils s.Bs cv with
  | none => none
  | some Bs2 =>
    some { s with
      Bs := Bs2
      BactInterpolator := Bs2
      Bx := gradX s.Nx s.deltax Bs2
      By := gradY s.Ny s.deltay Bs2
      Bz := gradZ s.Nz s.deltaz Bs2 }

/-- Embeds `getBact` (lines 56-65): query of the field interpolator at
`pos`. -/
def getBact (s : SysState) (p : ℚ × ℚ × ℚ) : Option Mat :=
  interpQuery s.xcoords s.ycoords s.zcoords s.BactInterpolator
    p.1 p.2.1 p.2.2

/-- Embeds `getDerMatrices` (lines 100-109): queries of the three
derivative interpolators at `pos`; an out-of-bounds error in any of the
three aborts the whole call. -/
def getDerMatrices (s : SysState) (p : ℚ × ℚ × ℚ) :
    Option (Mat × Mat × Mat) :=
  match interpQuery s.xcoords s.ycoords s.zcoords s.BxInterpolator
          p.1 p.2.1 p.2.2,
        interpQuery s.xcoords s.ycoords s.zcoords s.ByInterpolator
          p.1 p.2.1 p.2.2,
        interpQuery s.xcoords s.ycoords s.zcoords s.BzInterpolator
          p.1 p.2.1 p.2.2 with
  | some a, some b, some c => some (a, b, c)
  | _, _, _ => none

/-- Dot product `m.dot(M)` of a length-3 vector with a `(3, Ncoils)`
matrix: contraction of `m` against the first axis of `M`. -/
def mdot3 (m : ℕ → ℚ) (M : Mat) : ℕ → ℚ := fun n =>
  m 0 * M 0 n + m 1 * M 1 n + m 2 * M 2 n

/-- Embeds `getA` (lines 111-123): the stacked `(6, Ncoils)` matrix
`np.vstack((Bact, m.dot(Bx), m.dot(By), m.dot(Bz)))`, rows 0-2 from the
field interpolator and rows 3-5 the three contracted derivative rows. -/
def getA (s : SysState) (p : ℚ × ℚ × ℚ) (m : ℕ → ℚ) : Option Mat :=
  match getDerMatrices s p, getBact s p with
  | some d, some bact =>
    some (fun r n =>
      if r < 3 then bact r n
      else if r = 3 then mdot3 m d.1 n
      else if r = 4 then mdot3 m d.2.1 n
      else mdot3 m d.2.2 n)
  | _, _ => none

/-!  General lemmas about the embedded operations. -/

/-- Sorted axes make `searchsorted` recover the index of a node value. -/
theorem searchsorted_getD (xs : List ℚ) (h : xs.Sorted (· < ·)) :
    ∀ i, i < xs.length → searchsorted xs (xs.getD i 0) = i := by
  induction xs with
  | nil => intro i hi; simp at hi
  | cons a l ih =>
    have hal : ∀ b ∈ l, a < b := (List.sorted_cons.mp h).1
    have hl : l.Sorted (· < ·) := (List.sorted_cons.mp h).2
    intro i hi
    cases i with
    | zero =>
      simp only [List.getD_cons_zero, searchsorted, List.countP_cons]
      have h1 : l.countP (fun c => decide (c < a)) = 0 := by
        rw [List.countP_eq_zero]
        intro b hb
        simp only [decide_eq_true_eq, not_lt]
        exact le_of_lt (hal b hb)
      simp [h1]
    | succ j =>
      have hj : j < l.length := by simpa using hi
      have h2 : searchsorted l (l.getD j 0) = j := ih hl j hj
      have ha : a < l.getD j 0 := by
        have hmem : l.getD j 0 ∈ l := by
          rw [List.getD_eq_getElem _ _ hj]
          exact List.getElem_mem hj
        exact hal _ hmem
      have hpa : decide (a < l.getD j 0) = true := decide_eq_true ha
      simp only [searchsorted] at h2
      simp only [List.getD_cons_succ, searchsorted, List.countP_cons, hpa,
        h2]
      simp

/-- Strictly sorted axes are strictly monotone in `getD`. -/
theorem sorted_getD_lt (xs : List ℚ) (h : xs.Sorted (· < ·)) (i j : ℕ)
    (hij : i < j) (hj : j < xs.length) : xs.getD i 0 < xs.getD j 0 := by
  rw [List.getD_eq_get _ _ (lt_trans hij hj), List.getD_eq_get _ _ hj]
  exact h.rel_get_of_lt (Fin.mk_lt_mk.mpr hij)

/-- Monotone version of `sorted_getD_lt`. -/
theorem sorted_getD_le (xs : List ℚ) (h : xs.Sorted (· < ·)) (i j : ℕ)
    (hij : i ≤ j) (hj : j < xs.length) : xs.getD i 0 ≤ xs.getD j 0 := by
  rcases eq_or_lt_of_le hij with rfl | hlt
  · exact le_refl _
  · exact le_of_lt (sorted_getD_lt xs h i j hlt hj)

/-- Any grid node passes the interpolator bounds check. -/
theorem inBoundsB_node (xs : List ℚ) (h : xs.Sorted (· < ·)) (i : ℕ)
    (hi : i < xs.length) : inBoundsB xs (xs.getD i 0) = true := by
  simp only [inBoundsB, Bool.and_eq_true, decide_eq_true_eq]
  exact ⟨sorted_getD_le xs h 0 i (Nat.zero_le _) hi,
    sorted_getD_le xs h i (xs.length - 1) (by omega) (by omega)⟩

/-- One-dimensional linear interpolation is exact at a grid node. -/
theorem interp1_node (xs : List ℚ) (h : xs.Sorted (· < ·))
    (h2 : 2 ≤ xs.length) (i : ℕ) (hi : i < xs.length) (f : ℕ → ℚ) :
    interp1 xs f (xs.getD i 0) = f i := by
  have hs := searchsorted_getD xs h i hi
  cases i with
  | zero =>
    have hfc : findCell xs (xs.getD 0 0) = 0 := by
      simp only [findCell, hs]
      omega
    simp only [interp1, hfc]
    rw [sub_self, zero_div]
    ring
  | succ j =>
    have hfc : findCell xs (xs.getD (j + 1) 0) = j := by
      simp only [findCell, hs, Nat.add_sub_cancel]
      omega
    have hlt : xs.getD j 0 < xs.getD (j + 1) 0 :=
      sorted_getD_lt xs h j (j + 1) (Nat.lt_succ_self j) hi
    simp only [interp1, hfc]
    rw [div_self (sub_ne_zero.mpr (ne_of_gt hlt))]
    ring

/-- Axes produced by `axisOf` are strictly increasing: `dedup` removes
duplicates and the sort arranges the distinct values ascending. -/
theorem axisOf_sorted (arr : List ℚ) : (axisOf arr).Sorted (· < ·) := by
  have hle : (axisOf arr).Sorted (· ≤ ·) := List.sorted_insertionSort _ _
  have hnd : (axisOf arr).Nodup :=
    (List.perm_insertionSort _ _).nodup_iff.mpr (List.nodup_dedup _)
  exact hle.lt_of_le hnd

/-- Membership in the constructed axis is exactly being the rounded
value of some raw coordinate. -/
theorem mem_axisOf (arr : List ℚ) (v : ℚ) :
    v ∈ axisOf arr ↔ ∃ c ∈ arr, roundTol c = v := by
  rw [axisOf, (List.perm_insertionSort _ _).mem_iff, extract_unique_vals_tol,
    List.mem_dedup, List.mem_map]

/-- Lists holding two distinct elements have at least two entries. -/
theorem two_le_length_of_mem_ne {l : List ℚ} {a b : ℚ} (ha : a ∈ l)
    (hb : b ∈ l) (hab : a ≠ b) : 2 ≤ l.length := by
  match l with
  | [] => simp at ha
  | [x] =>
    simp only [List.mem_singleton] at ha hb
    exact absurd (ha.trans hb.symm) hab
  | x :: y :: t => simp only [List.length_cons]; omega

/-- Permutations of `range 6` satisfy the index-safety condition of the
`permutate_coils` loop for a six-coil system. -/
theorem valid6_of_perm (cv : List ℕ) (h : cv.Perm (List.range 6)) :
    valid6 6 cv = true := by
  have hlen : cv.length = 6 := by
    simpa using h.length_eq
  simp only [valid6, Bool.and_eq_true, decide_eq_true_eq, List.all_eq_true,
    List.mem_range]
  refine ⟨⟨le_refl 6, by omega⟩, ?_⟩
  intro i hi
  have hmem : cv.getD i 0 ∈ cv := by
    rw [List.getD_eq_getElem _ _ (by omega)]
    exact List.getElem_mem (by omega)
  have : cv.getD i 0 ∈ List.range 6 := h.mem_iff.mp hmem
  simpa [List.mem_range, decide_eq_true_eq] using this

/-!  Concrete tensors used by witnesses and counterexamples. -/

/-- Tensor whose entries equal the coil index, making coil slices
pairwise distinct. -/
def BsCoil : Tensor := fun _ _ _ _ k => (k : ℚ)

/-- Field linear in the x coordinate: component value `a*(b + d*ix)`
at node `ix` of an axis with offset `b` and spacing `d`. -/
def linX (a b d : ℚ) : Tensor := fun ix _ _ _ _ => a * (b + d * ix)

/-- Field linear in the y coordinate. -/
def linY (a b d : ℚ) : Tensor := fun _ iy _ _ _ => a * (b + d * iy)

/-- Field linear in the z coordinate. -/
def linZ (a b d : ℚ) : Tensor := fun _ _ iz _ _ => a * (b + d * iz)

/-- C3: for field tensors whose three axis lengths are at least 2, the
gradient computation yields, independently in each direction `d` with
spacing `delta_d` and for every `(component, coil)` entry, the forward
difference `(B[1]-B[0])/delta_d` at index 0, the backward difference
`(B[last]-B[last-1])/delta_d` at the last index, and the two-node
difference `(B[i+1]-B[i-1])/delta_d` with the single grid spacing as
denominator at every strictly interior node. -/
theorem C3_gradient_cases (Bs : Tensor) (Nx Ny Nz : ℕ) (dx dy dz : ℚ)
    (hx : 2 ≤ Nx) (hy : 2 ≤ Ny) (hz : 2 ≤ Nz)
    (nx ny nz c k : ℕ) (hnx : nx < Nx) (hny : ny < Ny) (hnz : nz < Nz) :
    ((nx = 0 →
      gradX Nx dx Bs nx ny nz c k = (Bs 1 ny nz c k - Bs 0 ny nz c k) / dx) ∧
     (nx = Nx - 1 → 0 < nx →
      gradX Nx dx Bs nx ny nz c k =
        (Bs nx ny nz c k - Bs (nx - 1) ny nz c k) / dx) ∧
     (0 < nx → nx < Nx - 1 →
      gradX Nx dx Bs nx ny nz c k =
        (Bs (nx + 1) ny nz c k - Bs (nx - 1) ny nz c k) / dx)) ∧
    ((ny = 0 →
      gradY Ny dy Bs nx ny nz c k = (Bs nx 1 nz c k - Bs nx 0 nz c k) / dy) ∧
     (ny = Ny - 1 → 0 < ny →
      gradY Ny dy Bs nx ny nz c k =
        (Bs nx ny nz c k - Bs nx (ny - 1) nz c k) / dy) ∧
     (0 < ny → ny < Ny - 1 →
      gradY Ny dy Bs nx ny nz c k =
        (Bs nx (ny + 1) nz c k - Bs nx (ny - 1) nz c k) / dy)) ∧
    ((nz = 0 →
      gradZ Nz dz Bs nx ny nz c k = (Bs nx ny 1 c k - Bs nx ny 0 c k) / dz) ∧
     (nz = Nz - 1 → 0 < nz →
      gradZ Nz dz Bs nx ny nz c k =
        (Bs nx ny nz c k - Bs nx ny (nz - 1) c k) / dz) ∧
     (0 < nz → nz < Nz - 1 →
      gradZ Nz dz Bs nx ny nz c k =
        (Bs nx ny (nz + 1) c k - Bs nx ny (nz - 1) c k) / dz)) := by
  refine ⟨⟨?_, ?_, ?_⟩, ⟨?_, ?_, ?_⟩, ⟨?_, ?_, ?_⟩⟩
  · intro h0; subst h0; simp [gradX]
  · intro hlast hpos
    simp only [gradX]
    rw [if_neg (by omega), if_pos hlast]
  · intro hpos hlt
    simp only [gradX]
    rw [if_neg (by omega), if_neg (by omega)]
  · intro h0; subst h0; simp [gradY]
  · intro hlast hpos
    simp only [gradY]
    rw [if_neg (by omega), if_pos hlast]
  · intro hpos hlt
    simp only [gradY]
    rw [if_neg (by omega), if_neg (by omega)]
  · intro h0; subst h0; simp [gradZ]
  · intro hlast hpos
    simp only [gradZ]
    rw [if_neg (by omega), if_pos hlast]
  · intro hpos hlt
    simp only [gradZ]
    rw [if_neg (by omega), if_neg (by omega)]

/-- Witness for C3: on a 3x3x3 grid the interior x-derivative entry is
the two-node difference over one spacing. -/
theorem C3_gradient_cases_witness :
    gradX 3 1 BsCoil 1 1 1 0 0 = (BsCoil 2 1 1 0 0 - BsCoil 0 1 1 0 0) / 1 :=
  (C3_gradient_cases BsCoil 3 3 3 1 1 1 (by decide) (by decide) (by decide)
    1 1 1 0 0 (by decide) (by decide) (by decide)).1.2.2
    (by decide) (by decide)

/-- Counterexample for C4: on the 3-node axis `0, 1, 2` with the linear
field `B = 1*x`, the gradient computation returns `2` at the interior
node, not the slope `1` that the claim asserts (the interior two-node
difference is divided by one grid spacing, not two). -/
theorem C4_counterexample :
    gradX 3 1 (linX 1 0 1) 1 0 0 0 0 = 2 ∧
    gradX 3 1 (linX 1 0 1) 1 0 0 0 0 ≠ 1 := by
  constructor <;> norm_num [gradX, linX]

/-- C4 as amended: for a 3-node-per-axis grid and a field linear in a
coordinate with slope `a`, the gradient computation yields exactly `a`
at the two boundary nodes and exactly `2*a` (twice the slope) at the
interior node, in each of the three directions. -/
theorem C4_amended_linear (a b dx dy dz : ℚ)
    (hdx : dx ≠ 0) (hdy : dy ≠ 0) (hdz : dz ≠ 0) (ny nz c k : ℕ) :
    (gradX 3 dx (linX a b dx) 0 ny nz c k = a ∧
     gradX 3 dx (linX a b dx) 1 ny nz c k = 2 * a ∧
     gradX 3 dx (linX a b dx) 2 ny nz c k = a) ∧
    (gradY 3 dy (linY a b dy) ny 0 nz c k = a ∧
     gradY 3 dy (linY a b dy) ny 1 nz c k = 2 * a ∧
     gradY 3 dy (linY a b dy) ny 2 nz c k = a) ∧
    (gradZ 3 dz (linZ a b dz) ny nz 0 c k = a ∧
     gradZ 3 dz (linZ a b dz) ny nz 1 c k = 2 * a ∧
     gradZ 3 dz (linZ a b dz) ny nz 2 c k = a) := by
  refine ⟨⟨?_, ?_, ?_⟩, ⟨?_, ?_, ?_⟩, ⟨?_, ?_, ?_⟩⟩
  all_goals
    simp only [gradX, gradY, gradZ, linX, linY, linZ]
    norm_num
    field_simp
    ring

/-- Witness for the amended C4 at slope `1`, offset `0`, spacing `1`. -/
theorem C4_amended_linear_witness :
    (gradX 3 1 (linX 1 0 1) 0 0 0 0 0 = 1 ∧
     gradX 3 1 (linX 1 0 1) 1 0 0 0 0 = 2 * 1 ∧
     gradX 3 1 (linX 1 0 1) 2 0 0 0 0 = 1) ∧
    (gradY 3 1 (linY 1 0 1) 0 0 0 0 0 = 1 ∧
     gradY 3 1 (linY 1 0 1) 0 1 0 0 0 = 2 * 1 ∧
     gradY 3 1 (linY 1 0 1) 0 2 0 0 0 = 1) ∧
    (gradZ 3 1 (linZ 1 0 1) 0 0 0 0 0 = 1 ∧
     gradZ 3 1 (linZ 1 0 1) 0 0 1 0 0 = 2 * 1 ∧
     gradZ 3 1 (linZ 1 0 1) 0 0 2 0 0 = 1) :=
  C4_amended_linear 1 0 1 1 1 (by norm_num) (by norm_num) (by norm_num) 0 0 0 0

/-- Counterexample for C1: with `Ncoils = 7` and the permutation
`[6,1,2,3,4,5,0]` of `[0,7)`, the loop of `permutate_coils` only runs
over indices `0..5`, so slice `6` keeps the old slice `6` (value `6` on
`BsCoil`) instead of the old slice `newOrder[6] = 0` (value `0`) that
the claim requires. -/
theorem C1_counterexample :
    ([6, 1, 2, 3, 4, 5, 0] : List ℕ).Perm (List.range 7) ∧
    Option.map (fun T => T 0 0 0 0 6)
      (permutate_coils 7 BsCoil [6, 1, 2, 3, 4, 5, 0]) = some 6 ∧
    BsCoil 0 0 0 0 (List.getD [6, 1, 2, 3, 4, 5, 0] 6 0) = 0 ∧
    (6 : ℚ) ≠ 0 := by
  have hv : valid6 7 [6, 1, 2, 3, 4, 5, 0] = true := by decide
  refine ⟨by decide, ?_, by norm_num [BsCoil], by norm_num⟩
  simp [permutate_coils, hv, BsCoil]

/-- C1 as amended: for a six-coil system (`Ncoils = 6`, matching the
hard-coded loop bound) and any permutation `newOrder` of `[0,6)`,
`permutate_coils` succeeds and every entry of the new tensor at coil
index `k < 6` equals the old entry at coil `newOrder[k]`; since every
coil index of a six-coil system is below 6, this determines the whole
permuted tensor and nothing else changes. -/
theorem C1_amended_six (Bs : Tensor) (cv : List ℕ)
    (hperm : cv.Perm (List.range 6)) (ix iy iz c k : ℕ) (hk : k < 6) :
    Option.map (fun T => T ix iy iz c k) (permutate_coils 6 Bs cv) =
      some (Bs ix iy iz c (cv.getD k 0)) := by
  simp [permutate_coils, valid6_of_perm cv hperm, hk]

/-- Witness for the amended C1, at the docstring example permutation
`coilvec = [2,1,0,3,4,5]`. -/
theorem C1_amended_six_witness :
    Option.map (fun T => T 0 0 0 0 0)
      (permutate_coils 6 BsCoil [2, 1, 0, 3, 4, 5]) =
      some (BsCoil 0 0 0 0 (List.getD [2, 1, 0, 3, 4, 5] 0 0)) :=
  C1_amended_six BsCoil [2, 1, 0, 3, 4, 5] (by decide) 0 0 0 0 0 (by decide)

/-- Counterexample for C5: `coilvec = [0,0,0,0,0,0]` is not a bijection
on `[0,6)`, yet `permutate_coils` raises no error at all — it succeeds
and mutates the tensor (slice 1 becomes the old slice 0, changing its
value from `1` to `0` on `BsCoil`).  No validation exists in the code
and no `InvalidPermutationError` is ever raised. -/
theorem C5_counterexample :
    ¬ ([0, 0, 0, 0, 0, 0] : List ℕ).Perm (List.range 6) ∧
    (permutate_coils 6 BsCoil [0, 0, 0, 0, 0, 0]).isSome = true ∧
    Option.map (fun T => T 0 0 0 0 1)
      (permutate_coils 6 BsCoil [0, 0, 0, 0, 0, 0]) = some 0 ∧
    BsCoil 0 0 0 0 1 = 1 ∧ (0 : ℚ) ≠ 1 := by
  have hv : valid6 6 [0, 0, 0, 0, 0, 0] = true := by decide
  refine ⟨by decide, by decide, ?_, by norm_num [BsCoil], by norm_num⟩
  simp [permutate_coils, hv, BsCoil]

/-- C5 as amended: `permutate_coils` performs no bijectivity check.
Whenever the first six entries of `coilvec` are in-range coil indices
(and the system has at least six coils), the call succeeds — bijection
or not — and reassigns slice `k < 6` to the old slice `coilvec[k]`,
leaving slices `6 ≤ k` unchanged.  Only when that index-safety condition
fails does the call fail (a Python `IndexError`, not an
`InvalidPermutationError`), and then the failure happens before
`self.Bs` is assigned, so the object state is unchanged. -/
theorem C5_amended_no_validation (Nc : ℕ) (Bs : Tensor) (cv : List ℕ) :
    (valid6 Nc cv = true →
      ∀ ix iy iz c k,
        Option.map (fun T => T ix iy iz c k) (permutate_coils Nc Bs cv) =
          some (if k < 6 then Bs ix iy iz c (cv.getD k 0)
                else Bs ix iy iz c k)) ∧
    (valid6 Nc cv = false → permutate_coils Nc Bs cv = none) := by
  constructor
  · intro h ix iy iz c k
    simp [permutate_coils, h]
  · intro h
    simp [permutate_coils, h]

/-- Witness for the amended C5: the non-bijective `[0,0,0,0,0,0]`
passes the index-safety condition and is applied slice-wise. -/
theorem C5_amended_no_validation_witness :
    Option.map (fun T => T 0 0 0 0 1)
      (permutate_coils 6 BsCoil [0, 0, 0, 0, 0, 0]) =
      some (if 1 < 6 then BsCoil 0 0 0 0 (List.getD [0, 0, 0, 0, 0, 0] 1 0)
            else BsCoil 0 0 0 0 1) :=
  (C5_amended_no_validation 6 BsCoil [0, 0, 0, 0, 0, 0]).1 (by decide)
    0 0 0 0 1

/-- Trilinear interpolation is exact at a grid node of strictly
increasing axes. -/
theorem trilinear_node (xs ys zs : List ℚ) (Bs : Tensor)
    (hx : xs.Sorted (· < ·)) (hy : ys.Sorted (· < ·))
    (hz : zs.Sorted (· < ·)) (hx2 : 2 ≤ xs.length) (hy2 : 2 ≤ ys.length)
    (hz2 : 2 ≤ zs.length) (i j k : ℕ) (hi : i < xs.length)
    (hj : j < ys.length) (hk : k < zs.length) (c n : ℕ) :
    trilinear xs ys zs Bs (xs.getD i 0) (ys.getD j 0) (zs.getD k 0) c n =
      Bs i j k c n := by
  unfold trilinear
  rw [interp1_node xs hx hx2 i hi]
  rw [interp1_node ys hy hy2 j hj]
  rw [interp1_node zs hz hz2 k hk]

/-- C8: for strictly increasing axes of length at least 2 and a field
interpolator bound to the current field tensor, querying `getBact`
exactly at the grid node `(xcoords[i], ycoords[j], zcoords[k])` returns
the stored sample `Bs[i,j,k,c,n]` exactly, for every component `c` and
coil `n`. -/
theorem C8_node_roundtrip (s : SysState)
    (hx : s.xcoords.Sorted (· < ·)) (hy : s.ycoords.Sorted (· < ·))
    (hz : s.zcoords.Sorted (· < ·)) (hx2 : 2 ≤ s.xcoords.length)
    (hy2 : 2 ≤ s.ycoords.length) (hz2 : 2 ≤ s.zcoords.length)
    (hsnap : s.BactInterpolator = s.Bs) (i j k c n : ℕ)
    (hi : i < s.xcoords.length) (hj : j < s.ycoords.length)
    (hk : k < s.zcoords.length) :
    Option.map (fun M => M c n)
      (getBact s
        (s.xcoords.getD i 0, s.ycoords.getD j 0, s.zcoords.getD k 0)) =
      some (s.Bs i j k c n) := by
  unfold getBact interpQuery
  rw [inBoundsB_node _ hx i hi, inBoundsB_node _ hy j hj,
    inBoundsB_node _ hz k hk]
  simp only [Bool.and_self, if_true, Option.map_some']
  rw [trilinear_node _ _ _ _ hx hy hz hx2 hy2 hz2 i j k hi hj hk c n,
    hsnap]

/-- C6: whenever the queried position fails the bounds check of any of
the three axes (it lies outside the sampled box), `getBact` fails with
the out-of-bounds error (`none`) and never returns an extrapolated
value. -/
theorem C6_out_of_bounds (s : SysState) (x y z : ℚ)
    (h : inBoundsB s.xcoords x = false ∨ inBoundsB s.ycoords y = false ∨
      inBoundsB s.zcoords z = false) :
    getBact s (x, y, z) = none := by
  unfold getBact interpQuery
  rcases h with h | h | h <;> simp [h]

/-- C7: at every position passing the interpolator bounds check, `getA`
returns the stacked matrix whose rows `0..2` equal the actuation matrix
`getBact` and whose rows `3..5` are the contractions of the dipole
moment `m` against the first axis of the x-, y- and z-derivative
matrices of `getDerMatrices` respectively. -/
theorem C7_extended_actuation (s : SysState) (p : ℚ × ℚ × ℚ) (m : ℕ → ℚ)
    (hb : (inBoundsB s.xcoords p.1 && inBoundsB s.ycoords p.2.1 &&
      inBoundsB s.zcoords p.2.2) = true) :
    (∀ r n, r < 3 →
      Option.map (fun A => A r n) (getA s p m) =
        Option.map (fun B => B r n) (getBact s p)) ∧
    (∀ n,
      Option.map (fun A => A 3 n) (getA s p m) =
        Option.map (fun d => mdot3 m d.1 n) (getDerMatrices s p) ∧
      Option.map (fun A => A 4 n) (getA s p m) =
        Option.map (fun d => mdot3 m d.2.1 n) (getDerMatrices s p) ∧
      Option.map (fun A => A 5 n) (getA s p m) =
        Option.map (fun d => mdot3 m d.2.2 n) (getDerMatrices s p)) := by
  constructor
  · intro r n hr
    simp only [getA, getBact, getDerMatrices, interpQuery, hb, if_true]
    simp [hr]
  · intro n
    refine ⟨?_, ?_, ?_⟩ <;>
      simp only [getA, getBact, getDerMatrices, interpQuery, hb, if_true] <;>
      simp

/-- Helper for witnesses: the default unit string `"m"` differs from
`"mm"`, so the constructor applies no rescaling. -/
theorem applyPosunit_m (coords : List (ℚ × ℚ × ℚ)) :
    applyPosunit "m" coords = coords := by
  rw [applyPosunit, if_neg (by decide)]

/-- Coordinates of a concrete 2x2x2 unit grid. -/
def coordsW8 : List (ℚ × ℚ × ℚ) :=
  [(0,0,0), (0,0,1), (0,1,0), (0,1,1), (1,0,0), (1,0,1), (1,1,0), (1,1,1)]

/-- Concrete field tensor with pairwise distinct node samples. -/
def BsW8 : Tensor := fun ix iy iz c n =>
  (ix : ℚ) + 2 * iy + 4 * iz + 8 * c + 16 * n

/-- Concrete system on the 2x2x2 unit grid. -/
def sysW8 : SysState := initState coordsW8 "m" BsW8 2 2 2 1

/-- The constructed x-axis of the concrete 2x2x2 system. -/
theorem sysW8_xcoords : sysW8.xcoords = [0, 1] := by
  norm_num [sysW8, initState, coordsW8, applyPosunit_m, axisOf,
    extract_unique_vals_tol, roundTol, pyRound, List.dedup, List.pwFilter,
    List.insertionSort, List.orderedInsert]

/-- The constructed y-axis of the concrete 2x2x2 system. -/
theorem sysW8_ycoords : sysW8.ycoords = [0, 1] := by
  norm_num [sysW8, initState, coordsW8, applyPosunit_m, axisOf,
    extract_unique_vals_tol, roundTol, pyRound, List.dedup, List.pwFilter,
    List.insertionSort, List.orderedInsert]

/-- The constructed z-axis of the concrete 2x2x2 system. -/
theorem sysW8_zcoords : sysW8.zcoords = [0, 1] := by
  norm_num [sysW8, initState, coordsW8, applyPosunit_m, axisOf,
    extract_unique_vals_tol, roundTol, pyRound, List.dedup, List.pwFilter,
    List.insertionSort, List.orderedInsert]

/-- Construction binds the field interpolator to the field tensor. -/
theorem sysW8_snap : sysW8.BactInterpolator = sysW8.Bs := rfl

/-- Witness for C8: on the concrete 2x2x2 system, querying at the node
`(xcoords[1], ycoords[0], zcoords[1])` returns the stored sample. -/
theorem C8_node_roundtrip_witness :
    Option.map (fun M => M 0 0)
      (getBact sysW8
        (sysW8.xcoords.getD 1 0, sysW8.ycoords.getD 0 0,
          sysW8.zcoords.getD 1 0)) =
      some (sysW8.Bs 1 0 1 0 0) :=
  C8_node_roundtrip sysW8
    (by rw [sysW8_xcoords]; norm_num [List.sorted_cons])
    (by rw [sysW8_ycoords]; norm_num [List.sorted_cons])
    (by rw [sysW8_zcoords]; norm_num [List.sorted_cons])
    (by rw [sysW8_xcoords]; norm_num)
    (by rw [sysW8_ycoords]; norm_num)
    (by rw [sysW8_zcoords]; norm_num)
    sysW8_snap 1 0 1 0 0
    (by rw [sysW8_xcoords]; norm_num)
    (by rw [sysW8_ycoords]; norm_num)
    (by rw [sysW8_zcoords]; norm_num)

/-- Coordinates realising the spec scenario of an x-axis
`[0, 0.01, 0.02]`. -/
def coordsW6 : List (ℚ × ℚ × ℚ) :=
  [(0, 0, 0), (1/100, 1, 1), (2/100, 0, 1)]

/-- Concrete system whose x-axis is `[0, 0.01, 0.02]`. -/
def sysW6 : SysState := initState coordsW6 "m" BsW8 3 2 2 1

/-- The constructed x-axis of the out-of-bounds scenario system. -/
theorem sysW6_xcoords : sysW6.xcoords = [0, 1/100, 2/100] := by
  norm_num [sysW6, initState, coordsW6, applyPosunit_m, axisOf,
    extract_unique_vals_tol, roundTol, pyRound, List.dedup, List.pwFilter,
    List.insertionSort, List.orderedInsert]

/-- Witness for C6: with x-axis `[0, 0.01, 0.02]`, querying at
`x = 0.05` fails with the out-of-bounds error. -/
theorem C6_out_of_bounds_witness : getBact sysW6 (5/100, 0, 0) = none :=
  C6_out_of_bounds sysW6 (5/100) 0 0
    (Or.inl (by rw [sysW6_xcoords]; norm_num [inBoundsB]))

/-- Witness for C7: on the concrete 2x2x2 system, row 3 of the extended
actuation matrix at the origin is the dipole contraction of the
x-derivative matrix. -/
theorem C7_extended_actuation_witness :
    Option.map (fun A => A 3 0) (getA sysW8 (0, 0, 0) (fun _ => 1)) =
      Option.map (fun d => mdot3 (fun _ => 1) d.1 0)
        (getDerMatrices sysW8 (0, 0, 0)) :=
  ((C7_extended_actuation sysW8 (0, 0, 0) (fun _ => 1)
    (by rw [sysW8_xcoords, sysW8_ycoords, sysW8_zcoords]
        norm_num [inBoundsB])).2 0).1

/-- Field tensor whose coil-0 slice is the x index and whose other coil
slices are zero, so coil 0 has x-derivative 1 and coil 1 has
x-derivative 0 everywhere. -/
def BsPer : Tensor := fun ix _ _ _ k => if k = 0 then (ix : ℚ) else 0

/-- Six-coil system on the 2x2x2 unit grid, before permutation. -/
def sysP0 : SysState := initState coordsW8 "m" BsPer 2 2 2 6

/-- Permutation of `[0,6)` swapping coils 0 and 1. -/
def cvP : List ℕ := [1, 0, 2, 3, 4, 5]

/-- The permuted field tensor `permutate_coils` produces on `BsPer`. -/
def BsPerm1 : Tensor := fun ix iy iz c k =>
  if k < 6 then BsPer ix iy iz c (cvP.getD k 0) else BsPer ix iy iz c k

/-- The object state after `permutate_coils`: field tensor and field
interpolator replaced, gradient tensors recomputed, but the three
derivative interpolators still bound to the pre-permutation gradient
tensors (the method never rebuilds them). -/
def sysP1Post : SysState :=
  { sysP0 with
    Bs := BsPerm1
    BactInterpolator := BsPerm1
    Bx := gradX sysP0.Nx sysP0.deltax BsPerm1
    By := gradY sysP0.Ny sysP0.deltay BsPerm1
    Bz := gradZ sysP0.Nz sysP0.deltaz BsPerm1 }

/-- The swap `cvP` passes the loop index-safety condition and yields
exactly the permuted tensor `BsPerm1`. -/
theorem permutate_coils_sysP0 : permutate_coils 6 BsPer cvP = some BsPerm1 := by
  have hv : valid6 6 cvP = true := by decide
  unfold permutate_coils
  rw [hv]
  rfl

/-- Applying the swap to the six-coil system produces `sysP1Post`. -/
theorem permutateState_sysP0 : permutateState sysP0 cvP = some sysP1Post := by
  unfold permutateState
  rw [show sysP0.Ncoils = 6 from rfl, show sysP0.Bs = BsPer from rfl,
    permutate_coils_sysP0]
  rfl

/-- The constructed x-axis of the six-coil system. -/
theorem sysP0_xcoords : sysP0.xcoords = [0, 1] := by
  norm_num [sysP0, initState, coordsW8, applyPosunit_m, axisOf,
    extract_unique_vals_tol, roundTol, pyRound, List.dedup, List.pwFilter,
    List.insertionSort, List.orderedInsert]

/-- The constructed y-axis of the six-coil system. -/
theorem sysP0_ycoords : sysP0.ycoords = [0, 1] := by
  norm_num [sysP0, initState, coordsW8, applyPosunit_m, axisOf,
    extract_unique_vals_tol, roundTol, pyRound, List.dedup, List.pwFilter,
    List.insertionSort, List.orderedInsert]

/-- The constructed z-axis of the six-coil system. -/
theorem sysP0_zcoords : sysP0.zcoords = [0, 1] := by
  norm_num [sysP0, initState, coordsW8, applyPosunit_m, axisOf,
    extract_unique_vals_tol, roundTol, pyRound, List.dedup, List.pwFilter,
    List.insertionSort, List.orderedInsert]

/-- The x spacing of the six-coil system. -/
theorem sysP0_deltax : sysP0.deltax = 1 := by
  norm_num [sysP0, initState, coordsW8, applyPosunit_m, axisOf,
    extract_unique_vals_tol, roundTol, pyRound, List.dedup, List.pwFilter,
    List.insertionSort, List.orderedInsert]

/-- C2 fails on the code: after the successful coil swap `cvP` on the
six-coil system, `getDerMatrices` at the node `(0,0,0)` returns `1` for
the x-derivative of component 0, coil 0 — the pre-permutation value that
the stale `BxInterpolator` is still bound to — while the x-derivative
tensor recomputed from the permuted field (which the claim says every
subsequent query must reflect) is `0` there.  `permutate_coils` rebuilds
`BactInterpolator` and recomputes `Bx, By, Bz`, but never rebuilds
`BxInterpolator`, `ByInterpolator`, `BzInterpolator` (lines 96-98). -/
theorem C2_stale_derivative_interpolators :
    permutateState sysP0 cvP = some sysP1Post ∧
    Option.map (fun d => d.1 0 0) (getDerMatrices sysP1Post (0, 0, 0)) =
      some 1 ∧
    sysP1Post.Bx 0 0 0 0 0 = 0 ∧
    (1 : ℚ) ≠ 0 := by
  refine ⟨permutateState_sysP0, ?_, ?_, by norm_num⟩
  · have hax : sysP1Post.xcoords = [0, 1] :=
      (show sysP1Post.xcoords = sysP0.xcoords from rfl).trans sysP0_xcoords
    have hay : sysP1Post.ycoords = [0, 1] :=
      (show sysP1Post.ycoords = sysP0.ycoords from rfl).trans sysP0_ycoords
    have haz : sysP1Post.zcoords = [0, 1] :=
      (show sysP1Post.zcoords = sysP0.zcoords from rfl).trans sysP0_zcoords
    have hbxi : sysP1Post.BxInterpolator = gradX 2 sysP0.deltax BsPer := rfl
    have hbyi : sysP1Post.ByInterpolator = gradY 2 sysP0.deltay BsPer := rfl
    have hbzi : sysP1Post.BzInterpolator = gradZ 2 sysP0.deltaz BsPer := rfl
    rw [getDerMatrices, hax, hay, haz, hbxi, hbyi, hbzi, sysP0_deltax]
    norm_num [interpQuery, inBoundsB, trilinear, interp1, findCell,
      searchsorted, List.countP, List.countP.go, gradX, gradY, gradZ, BsPer]
  · have h : sysP1Post.Bx = gradX 2 sysP0.deltax BsPerm1 := rfl
    rw [h, sysP0_deltax]
    norm_num [gradX, BsPerm1, BsPer, cvP]

/-- Counterexample for C9: the raw coordinate `123.4567` has seven
significant digits; rounding to 6 significant decimal digits (the
spec's wording, encoded by `sigRound6`) would give `123.457`, but the
axis-extraction helper keeps `123.4567` unchanged — it rounds to 6
decimal places (`1e-6*round(1e6*c)`), not to 6 significant digits. -/
theorem C9_counterexample :
    extract_unique_vals_tol [1234567/10000] = [1234567/10000] ∧
    sigRound6 (1234567/10000) = 123457/1000 ∧
    (1234567/10000 : ℚ) ≠ 123457/1000 := by
  refine ⟨?_, ?_, by norm_num⟩
  · norm_num [extract_unique_vals_tol, roundTol, pyRound, List.dedup,
      List.pwFilter]
  · have h0 : intDigits (1234567/10000 : ℚ) = 3 := by
      have ha : (⌊|(1234567/10000 : ℚ)|⌋ : ℤ).toNat = 123 := by
        rw [abs_of_pos (by norm_num : (0:ℚ) < 1234567/10000)]
        norm_num
        rfl
      have h1 : Nat.log 10 123 = 2 :=
        Nat.log_eq_of_pow_le_of_lt_pow (by norm_num) (by norm_num)
      rw [intDigits, ha, h1]
    rw [sigRound6, h0]
    norm_num [pyRound]

/-- C9 as amended: axis construction rounds every raw coordinate to six
decimal places (multiply by `1e6`, round to the nearest integer with
ties to even, divide by `1e6`) — not to six significant decimal digits —
takes the distinct rounded values sorted ascending, so the axis is
strictly increasing and consists exactly of the rounded raw values;
whenever two raw coordinates round differently the axis has length at
least 2, and the spacing is the difference of the first two sorted
values. -/
theorem C9_amended_axis (arr : List ℚ) :
    (axisOf arr).Sorted (· < ·) ∧
    (∀ v, v ∈ axisOf arr ↔ ∃ c ∈ arr, roundTol c = v) ∧
    (∀ a b, a ∈ arr → b ∈ arr → roundTol a ≠ roundTol b →
      2 ≤ (axisOf arr).length) ∧
    deltaOf arr = (axisOf arr).getD 1 0 - (axisOf arr).getD 0 0 := by
  refine ⟨axisOf_sorted arr, mem_axisOf arr, ?_, rfl⟩
  intro a b ha hb hne
  exact two_le_length_of_mem_ne
    ((mem_axisOf arr _).mpr ⟨a, ha, rfl⟩)
    ((mem_axisOf arr _).mpr ⟨b, hb, rfl⟩) hne

/-- Witness for the amended C9: two raw values rounding differently
force an axis of length at least 2. -/
theorem C9_amended_axis_witness :
    2 ≤ (axisOf [1/100, 0, 2/100, 1/100]).length :=
  (C9_amended_axis [1/100, 0, 2/100, 1/100]).2.2.1 (1/100) 0
    (by norm_num) (by norm_num)
    (by norm_num [roundTol, pyRound])

/-- C10: the constructor rescales the sample coordinates by `1e-3`
exactly when `posunit = "mm"`; for every other `posunit` value
(including the default `"m"` and unrecognised strings) the coordinates
are stored unscaled, and no error is raised. -/
theorem C10_posunit_rescale (rawCoords : List (ℚ × ℚ × ℚ)) (Bs0 : Tensor)
    (Nx Ny Nz Nc : ℕ) (u : String) (hu : u ≠ "mm") :
    (initState rawCoords "mm" Bs0 Nx Ny Nz Nc).coordinates =
      rawCoords.map (fun p => (p.1 / 1000, p.2.1 / 1000, p.2.2 / 1000)) ∧
    (initState rawCoords u Bs0 Nx Ny Nz Nc).coordinates = rawCoords := by
  constructor
  · simp [initState, applyPosunit]
  · simp [initState, applyPosunit, hu]

/-- Witness for C10 at the unrecognised unit string `"m"` (the default)
and a concrete coordinate list. -/
theorem C10_posunit_rescale_witness :
    (initState [((1:ℚ), 2, 3)] "mm" BsW8 1 1 1 1).coordinates =
      [((1:ℚ), 2, 3)].map
        (fun p => (p.1 / 1000, p.2.1 / 1000, p.2.2 / 1000)) ∧
    (initState [((1:ℚ), 2, 3)] "m" BsW8 1 1 1 1).coordinates =
      [((1:ℚ), 2, 3)] :=
  C10_posunit_rescale [((1:ℚ), 2, 3)] BsW8 1 1 1 1 "m" (by decide)
